import Mathlib

set_option maxRecDepth 100000

/-!
Verification of the field-arithmetic core of the p751 isogeny library
(src/field.go): the prime field F_p and its quadratic extension F_{p^2},
where p is the fixed 751-bit prime 2^372 * 3^239 - 1.

The word-level residue primitives (fp751AddReduced, fp751Mul,
fp751MontgomeryReduce, ...) are external assembly collaborators of the
repository; they are modelled here from their contracts in the spec
(section 4.1), acting on residues modulo p.  A field element in
Montgomery form stores v*R mod p for logical value v, with R = 2^768;
the stored residue is what our `fp751Element` carries, and
`PrimeFieldElement.value` recovers the logical value v = stored * R^-1.

Everything in src/field.go itself (the element types, Mul, Square, Inv,
Sqrt, P34 with its sliding-window strategy tables, Pow2k, Add, Sub,
VartimeEq) is transcribed definition by definition below.
-/

/-- Modelled from the spec: the single fixed 751-bit prime p ≡ 3 mod 4 of
the arithmetic core.  Its value 2^372 * 3^239 - 1 is pinned by the
`montgomeryR` constant of src/field.go, which stores (2^768) mod p: see
`montgomeryR_limbs_encode` below. -/
def p751 : ℕ := 2 ^ 372 * 3 ^ 239 - 1

/-- From src/field.go: `const fp751NumWords = 12`. -/
def fp751NumWords : ℕ := 12

/-- The natural number encoded by a little-endian list of 64-bit limbs,
as in the Go array type `fp751Element [fp751NumWords]uint64`. -/
def limbsToNat (L : List ℕ) : ℕ :=
  L.foldr (fun w acc => w + 2 ^ 64 * acc) 0

/-- The limbs of the `montgomeryR` constant of src/field.go,
documented there as (2^768) mod p. -/
def montgomeryRlimbs : List ℕ :=
  [149933, 0, 0, 0, 0, 9444048418595930112, 6136068611055053926,
   7599709743867700432, 14455912356952952366, 5522737203492907350,
   1222606818372667369, 49869481633250]

/-- The limbs of the `montgomeryRsq` constant of src/field.go,
documented there as (2^768)^2 mod p. -/
def montgomeryRsqLimbs : List ℕ :=
  [2535603850726686808, 15780896088201250090, 6788776303855402382,
   17585428585582356230, 5274503137951975249, 2266259624764636289,
   11695651972693921304, 13072885652150159301, 4908312795585420432,
   6229583484603254826, 488927695601805643, 72213483953973]

/-- The residue carried by a `fp751Element`.  The Go type is a 12-limb
array; an element always encodes a residue class modulo p751, which is
what the arithmetic layer manipulates, so we model it by that class. -/
abbrev fp751Element : Type := ZMod p751

/-- The residue carried by a `fp751X2` double-width intermediate value.
Again we model the limb array by the residue class it encodes. -/
abbrev fp751X2 : Type := ZMod p751

/-- The value of R^-1 mod p for R = 2^768, precomputed as a literal so
that `fp751MontgomeryReduce` is an explicit residue operation.  The
defining property R * R^-1 = 1 is checked in `montgomeryR_mul_inv`. -/
def montgomeryRinvVal : ℕ := 1518725603824737389819053798918035007730761831988339415201705393383230549778130460683426736321139507281132743779724182711261647601379839529950740166978024981554536824910527087746254630334120179536606671225338947864384536159295

/-- R^-1 mod p as a residue. -/
def montgomeryRinv : fp751Element := (montgomeryRinvVal : ZMod p751)

/-- The `montgomeryR` constant of src/field.go, as the residue its limbs
encode: (2^768) mod p, the Montgomery form of 1. -/
def montgomeryR : fp751Element := (limbsToNat montgomeryRlimbs : ZMod p751)

/-- The `montgomeryRsq` constant of src/field.go, as the residue its
limbs encode: (2^768)^2 mod p. -/
def montgomeryRsq : fp751Element := (limbsToNat montgomeryRsqLimbs : ZMod p751)

/-- Modelled from the spec: `fp751AddReduced(z,x,y)` sets z = (x+y) mod p. -/
def fp751AddReduced (x y : fp751Element) : fp751Element := x + y

/-- Modelled from the spec: `fp751SubReduced(z,x,y)` sets z = (x-y) mod p. -/
def fp751SubReduced (x y : fp751Element) : fp751Element := x - y

/-- Modelled from the spec: `fp751Mul(z,x,y)` sets the double-width z to
the exact product x*y (we track the residue class it encodes). -/
def fp751Mul (x y : fp751Element) : fp751X2 := x * y

/-- Modelled from the spec: `fp751X2AddLazy(z,x,y)` sets z = x + y on
double-width values without reduction; the residue class is the sum. -/
def fp751X2AddLazy (x y : fp751X2) : fp751X2 := x + y

/-- Modelled from the spec: `fp751X2SubLazy(z,x,y)` sets z = x - y on
double-width values without reduction; the residue class is the
difference. -/
def fp751X2SubLazy (x y : fp751X2) : fp751X2 := x - y

/-- Modelled from the spec: `fp751MontgomeryReduce(z,x)` sets
z = x * R^-1 mod p. -/
def fp751MontgomeryReduce (x : fp751X2) : fp751Element := x * montgomeryRinv

/-- From src/field.go: an element a+bi of F_{p^2}, each coordinate a
residue in Montgomery form. -/
@[ext]
structure ExtensionFieldElement where
  a : fp751Element
  b : fp751Element
deriving DecidableEq

/-- From src/field.go: an element of F_p, a residue in Montgomery form. -/
@[ext]
structure PrimeFieldElement where
  a : fp751Element
deriving DecidableEq

/-- From src/field.go, `ExtensionFieldElement.Mul`: Karatsuba product
(a+bi)(c+di) with 3 multiplications, exactly as written in the source:
ac and bd, then (b-a)(c-d), then ad+bc = (b-a)(c-d) + ac + bd by two
lazy double-width additions, Montgomery reductions for both halves. -/
def ExtensionFieldElement.Mul (lhs rhs : ExtensionFieldElement) : ExtensionFieldElement :=
  let a := lhs.a
  let b := lhs.b
  let c := rhs.a
  let d := rhs.b
  let ac := fp751Mul a c
  let bd := fp751Mul b d
  let b_minus_a := fp751SubReduced b a
  let c_minus_d := fp751SubReduced c d
  let ad_plus_bc := fp751X2AddLazy (fp751X2AddLazy (fp751Mul b_minus_a c_minus_d) ac) bd
  { a := fp751MontgomeryReduce (fp751X2SubLazy ac bd)
    b := fp751MontgomeryReduce ad_plus_bc }

/-- From src/field.go, `ExtensionFieldElement.Square`:
(a+bi)^2 = (a+b)(a-b) + 2ab i. -/
def ExtensionFieldElement.Square (x : ExtensionFieldElement) : ExtensionFieldElement :=
  let a := x.a
  let b := x.b
  let a2 := fp751AddReduced a a
  let a_plus_b := fp751AddReduced a b
  let a_minus_b := fp751SubReduced a b
  let asq_minus_bsq := fp751Mul a_plus_b a_minus_b
  let ab2 := fp751Mul a2 b
  { a := fp751MontgomeryReduce asq_minus_bsq
    b := fp751MontgomeryReduce ab2 }

/-- From src/field.go, `ExtensionFieldElement.Add`: coordinatewise. -/
def ExtensionFieldElement.Add (lhs rhs : ExtensionFieldElement) : ExtensionFieldElement :=
  { a := fp751AddReduced lhs.a rhs.a
    b := fp751AddReduced lhs.b rhs.b }

/-- From src/field.go, `ExtensionFieldElement.Sub`: coordinatewise. -/
def ExtensionFieldElement.Sub (lhs rhs : ExtensionFieldElement) : ExtensionFieldElement :=
  { a := fp751SubReduced lhs.a rhs.a
    b := fp751SubReduced lhs.b rhs.b }

/-- From src/field.go, `PrimeFieldElement.SetUint64`: embed x, multiply
by R^2 double-width, Montgomery-reduce, so the result stores x*R mod p. -/
def PrimeFieldElement.SetUint64 (x : ℕ) : PrimeFieldElement :=
  { a := fp751MontgomeryReduce (fp751Mul (x : ZMod p751) montgomeryRsq) }

/-- From src/field.go, `PrimeFieldElement.Mul`: double-width multiply
then one Montgomery reduction. -/
def PrimeFieldElement.Mul (lhs rhs : PrimeFieldElement) : PrimeFieldElement :=
  { a := fp751MontgomeryReduce (fp751Mul lhs.a rhs.a) }

/-- From src/field.go, `PrimeFieldElement.Square`: multiply x by itself. -/
def PrimeFieldElement.Square (x : PrimeFieldElement) : PrimeFieldElement :=
  { a := fp751MontgomeryReduce (fp751Mul x.a x.a) }

/-- From src/field.go, `PrimeFieldElement.Pow2k`: one squaring into dest,
then the loop `for i := 1; i < k; i++ { dest.Square(dest) }`, i.e. k-1
further squarings (none when k is 0 or 1). -/
def PrimeFieldElement.Pow2k (x : PrimeFieldElement) (k : ℕ) : PrimeFieldElement :=
  PrimeFieldElement.Square^[k - 1] (PrimeFieldElement.Square x)

/-- From src/field.go, `PrimeFieldElement.Add`. -/
def PrimeFieldElement.Add (lhs rhs : PrimeFieldElement) : PrimeFieldElement :=
  { a := fp751AddReduced lhs.a rhs.a }

/-- From src/field.go, `PrimeFieldElement.Sub`. -/
def PrimeFieldElement.Sub (lhs rhs : PrimeFieldElement) : PrimeFieldElement :=
  { a := fp751SubReduced lhs.a rhs.a }

/-- From src/field.go, `P34`: the committed 137-entry squaring-count
table of the sliding-window strategy. -/
def powStrategy : List ℕ := [5, 7, 6, 2, 10, 4, 6, 9, 8, 5, 9, 4, 7, 5, 5, 4, 8, 3, 9, 5, 5, 4, 10, 4, 6, 6, 6, 5, 8, 9, 3, 4, 9, 4, 5, 6, 6, 2, 9, 4, 5, 5, 5, 7, 7, 9, 4, 6, 4, 8, 5, 8, 6, 6, 2, 9, 7, 4, 8, 8, 8, 4, 6, 5, 5, 5, 5, 5, 5, 5, 5, 5, 5, 5, 5, 5, 5, 5, 5, 5, 5, 5, 5, 5, 5, 5, 5, 5, 5, 5, 5, 5, 5, 5, 5, 5, 5, 5, 5, 5, 5, 5, 5, 5, 5, 5, 5, 5, 5, 5, 5, 5, 5, 5, 5, 5, 5, 5, 5, 5, 5, 5, 5, 5, 5, 5, 5, 5, 5, 5, 5, 5, 5, 5, 5, 5, 2]

/-- From src/field.go, `P34`: the committed 137-entry odd-multiplier
table of the sliding-window strategy. -/
def mulStrategy : List ℕ := [31, 23, 21, 1, 31, 7, 7, 7, 9, 9, 19, 15, 23, 23, 11, 7, 25, 5, 21, 17, 11, 5, 17, 7, 11, 9, 23, 9, 1, 19, 5, 3, 25, 15, 11, 29, 31, 1, 29, 11, 13, 9, 11, 27, 13, 19, 15, 31, 3, 29, 23, 31, 25, 11, 1, 21, 19, 15, 15, 21, 29, 13, 23, 31, 31, 31, 31, 31, 31, 31, 31, 31, 31, 31, 31, 31, 31, 31, 31, 31, 31, 31, 31, 31, 31, 31, 31, 31, 31, 31, 31, 31, 31, 31, 31, 31, 31, 31, 31, 31, 31, 31, 31, 31, 31, 31, 31, 31, 31, 31, 31, 31, 31, 31, 31, 31, 31, 31, 31, 31, 31, 31, 31, 31, 31, 31, 31, 31, 31, 31, 31, 31, 31, 31, 31, 31, 3]

/-- From src/field.go, `P34`: `initialMul := uint8(27)`. -/
def initialMul : ℕ := 27

/-- From src/field.go, `P34`: the lookup table of odd powers,
`lookup[0] = x`, `lookup[i] = lookup[i-1] * xx` where xx = x^2, so that
`lookup[i]` holds x^(2i+1). -/
def PrimeFieldElement.lookup (x xx : PrimeFieldElement) : ℕ → PrimeFieldElement
  | 0 => x
  | i + 1 => PrimeFieldElement.Mul (PrimeFieldElement.lookup x xx i) xx

/-- From src/field.go, `PrimeFieldElement.P34`: build the table of the
16 odd powers of x, start from `lookup[initialMul/2]`, then for each of
the 137 strategy pairs raise to 2^powStrategy[i] with `Pow2k` and
multiply by `lookup[mulStrategy[i]/2]`. -/
def PrimeFieldElement.P34 (x : PrimeFieldElement) : PrimeFieldElement :=
  let xx := PrimeFieldElement.Square x
  let lookup := PrimeFieldElement.lookup x xx
  (powStrategy.zip mulStrategy).foldl
    (fun dest pm => PrimeFieldElement.Mul (PrimeFieldElement.Pow2k dest pm.1) (lookup (pm.2 / 2)))
    (lookup (initialMul / 2))

/-- From src/field.go, `PrimeFieldElement.Sqrt`: copy x, set dest to
P34(x) = x^((p-3)/4), then multiply by the copy. -/
def PrimeFieldElement.Sqrt (x : PrimeFieldElement) : PrimeFieldElement :=
  let tmp_x := x
  PrimeFieldElement.Mul (PrimeFieldElement.P34 x) tmp_x

/-- From src/field.go, `PrimeFieldElement.Inv`: copy x, square, P34,
square, then multiply by the copy, computing x^(p-2). -/
def PrimeFieldElement.Inv (x : PrimeFieldElement) : PrimeFieldElement :=
  let tmp_x := x
  PrimeFieldElement.Mul
    (PrimeFieldElement.Square (PrimeFieldElement.P34 (PrimeFieldElement.Square x)))
    tmp_x

/-- From src/field.go, `ExtensionFieldElement.Inv`: compute the norm
a^2 + b^2 (two double-width squarings, one lazy add, one Montgomery
reduction), invert it in the prime field, then multiply a and -b by the
inverse.  The source computes -b as `fp751SubReduced(&minus_b, &minus_b, b)`
on a zero-initialized local, i.e. 0 - b. -/
def ExtensionFieldElement.Inv (x : ExtensionFieldElement) : ExtensionFieldElement :=
  let a := x.a
  let b := x.b
  let asq_plus_bsq : PrimeFieldElement :=
    { a := fp751MontgomeryReduce (fp751X2AddLazy (fp751Mul a a) (fp751Mul b b)) }
  let asq_plus_bsq_inv := PrimeFieldElement.Inv asq_plus_bsq
  let c := asq_plus_bsq_inv.a
  let minus_b := fp751SubReduced 0 b
  { a := fp751MontgomeryReduce (fp751Mul a c)
    b := fp751MontgomeryReduce (fp751Mul minus_b c) }

/-- The logical value represented by a prime-field element in Montgomery
form: the stored residue is v*R mod p, so v = stored * R^-1. -/
def PrimeFieldElement.value (x : PrimeFieldElement) : ZMod p751 :=
  x.a * montgomeryRinv

/-- Modelled from the spec: naive square-and-multiply over an exponent,
built on the same `Square` and `Mul` operations of the code; the
reference point of the P34 self-consistency property.  The empty
product is the Montgomery form of 1, i.e. the stored residue R. -/
def squareAndMultiply (x : PrimeFieldElement) (e : ℕ) : PrimeFieldElement :=
  if e = 0 then { a := montgomeryR }
  else if e % 2 = 1 then
    PrimeFieldElement.Mul (PrimeFieldElement.Square (squareAndMultiply x (e / 2))) x
  else
    PrimeFieldElement.Square (squareAndMultiply x (e / 2))
decreasing_by all_goals exact Nat.div_lt_self (Nat.pos_of_ne_zero (by assumption)) one_lt_two

/-- Modelled from the spec: the direct 4-multiplication product formula
(ac - bd) + (ad + bc)i, against which the Karatsuba `Mul` is compared. -/
def ExtensionFieldElement.MulDirect (lhs rhs : ExtensionFieldElement) : ExtensionFieldElement :=
  let a := lhs.a
  let b := lhs.b
  let c := rhs.a
  let d := rhs.b
  { a := fp751MontgomeryReduce (fp751X2SubLazy (fp751Mul a c) (fp751Mul b d))
    b := fp751MontgomeryReduce (fp751X2AddLazy (fp751Mul a d) (fp751Mul b c)) }

/-- The exponent computed by the P34 sliding-window chain: start from the
odd exponent written by `lookup[initialMul/2]`, and each round multiplies
the exponent by 2^powStrategy[i] and adds the odd exponent
2*(mulStrategy[i]/2)+1 of the table entry that is multiplied in. -/
def p34Exponent : ℕ :=
  (powStrategy.zip mulStrategy).foldl
    (fun e pm => e * 2 ^ pm.1 + (2 * (pm.2 / 2) + 1))
    (2 * (initialMul / 2) + 1)


/-!
## Certifying that p751 is prime

The repository relies on p being prime (inversion by Fermat, square
roots by the Euler criterion).  p751 + 1 = 2^372 * 3^239 is fully
factored, so primality is certified Lucas-style: we exhibit an element
of multiplicative order p751 + 1 in the quadratic extension ring
(ZMod p751)[x]/(x^2 - 7), modelled as pairs.  Any prime factor q of
p751 would give a quotient ring of at most q^2 elements in which that
order is impossible unless q^2 > p751.
-/

/-- The ring (ZMod n)[x]/(x^2 - 7) as pairs a + b*x, carrier of the
primality certificate for p751. -/
def Xq (n : ℕ) : Type := ZMod n × ZMod n

instance instXqDecidableEq (n : ℕ) : DecidableEq (Xq n) :=
  inferInstanceAs (DecidableEq (ZMod n × ZMod n))

instance instXqFintype (n : ℕ) [NeZero n] : Fintype (Xq n) :=
  inferInstanceAs (Fintype (ZMod n × ZMod n))

instance instXqAdd (n : ℕ) : Add (Xq n) :=
  inferInstanceAs (Add (ZMod n × ZMod n))

/-- Multiplication of a + b*x and c + d*x modulo x^2 - 7. -/
def Xq.mul {n : ℕ} (x y : Xq n) : Xq n :=
  (x.1 * y.1 + 7 * (x.2 * y.2), x.1 * y.2 + x.2 * y.1)

instance instXqMul (n : ℕ) : Mul (Xq n) := ⟨Xq.mul⟩

instance instXqOne (n : ℕ) : One (Xq n) := ⟨((1 : ZMod n), (0 : ZMod n))⟩

instance instXqMonoid (n : ℕ) : Monoid (Xq n) :=
  { instXqMul n, instXqOne n with
    mul_assoc := by
      intro x y z
      show Xq.mul (Xq.mul x y) z = Xq.mul x (Xq.mul y z)
      simp only [Xq.mul]
      refine Prod.ext ?_ ?_ <;> dsimp only <;> ring
    one_mul := by
      intro x
      show Xq.mul ((1 : ZMod n), (0 : ZMod n)) x = x
      simp only [Xq.mul]
      refine Prod.ext ?_ ?_ <;> dsimp only <;> ring
    mul_one := by
      intro x
      show Xq.mul x ((1 : ZMod n), (0 : ZMod n)) = x
      simp only [Xq.mul]
      refine Prod.ext ?_ ?_ <;> dsimp only <;> ring }

/-- Componentwise reduction from Xq m to Xq q for q dividing m. -/
def XqMap (m q : ℕ) (h : q ∣ m) : Xq m → Xq q :=
  fun x => (ZMod.castHom h (ZMod q) x.1, ZMod.castHom h (ZMod q) x.2)

/-- First coordinate of the certificate element of order p751 + 1. -/
def certAlphaFst : ℕ := 8572779716478843421554230584893429859799255504221595895479974968714229743123105090380832192848198542888449599481090292317365701833944825760426066716833536004301276950257495757674958528968103681476110288229079102263511468485839

/-- Second coordinate of the certificate element of order p751 + 1. -/
def certAlphaSnd : ℕ := 209947544292218989050545089520896004904682285398691608635420309814936012761717085386092270590160563941853320605323386794553951606721231149493799451879709224165613497504499254902425022627335161100372409788149036288634507128092

/-- First coordinate of the inverse witness for the order-3 condition. -/
def certGammaFst : ℕ := 5177358870884652626488884118933402660713694822774535585058094839527339470341239423251441448280533356812276605809420101192601955988261277196522080234385575908488353420039456667179199865476387463490117543425495750936332825788415

/-- Second coordinate of the inverse witness for the order-3 condition. -/
def certGammaSnd : ℕ := 3684823190432599104445232634413325329648198858838846834910213420978083147002294273538900986343248007456977567181781032581561772192676572573037613079933091503903962401117539382440348680620467465369947344357536670752497155029746

/-- Kernel-computable product in (Z/p751)[x]/(x^2 - 7) on bare pairs of
naturals, used to evaluate the certificate. -/
def qmulN (x y : ℕ × ℕ) : ℕ × ℕ :=
  ((x.1 * y.1 + 7 * (x.2 * y.2)) % p751, (x.1 * y.2 + x.2 * y.1) % p751)

/-- Kernel-computable binary exponentiation on bare pairs, in
tail-recursive accumulator form so its evaluation runs in constant
stack; the fuel bounds the recursion depth by the bit length of the
exponent. -/
def qpowTR : ℕ → ℕ × ℕ → ℕ → ℕ × ℕ → ℕ × ℕ
  | 0, _, _, acc => acc
  | fuel + 1, x, k, acc =>
    if k = 0 then acc
    else qpowTR fuel (qmulN x x) (k / 2) (if k % 2 = 1 then qmulN acc x else acc)

/-- Interpret a bare pair as an element of Xq p751. -/
def natToXq (v : ℕ × ℕ) : Xq p751 := ((v.1 : ZMod p751), (v.2 : ZMod p751))

/-- The certificate element of order p751 + 1. -/
def certAlpha : Xq p751 := natToXq (certAlphaFst, certAlphaSnd)

/-- The inverse witness showing alpha^((p751+1)/3) is not 1 modulo any
prime factor of p751. -/
def certGamma : Xq p751 := natToXq (certGammaFst, certGammaSnd)

/-- The element -1 of Xq n. -/
def Xq.negOne (n : ℕ) : Xq n := ((-1 : ZMod n), (0 : ZMod n))


/-!
## Limb-level model of strong reduction and variable-time equality

`vartimeEq` compares the limb encodings after strong reduction, and its
domain is the lazy range [0, 2p) of the residue encoding, so for this
part we model a `fp751Element` by the natural number its 12 limbs
encode rather than by its residue class.  Go passes `fp751Element` to
`vartimeEq` by value, so the callee works on copies: `vartimeEqHeap`
states that call shape on a heap of operands.
-/

/-- Modelled from the spec: `fp751StrongReduce(x)` normalizes a value in
[0, 2p) to [0, p) by subtracting p once when p <= x. -/
def fp751StrongReduce (x : ℕ) : ℕ := if p751 ≤ x then x - p751 else x

/-- From src/field.go, `fp751Element.vartimeEq`: strong-reduce both
by-value copies, then compare.  The limb-by-limb comparison loop of the
source agrees with equality of the encoded values because both sides
are reduced below p < 2^768, where the 12-limb encoding is injective. -/
def fp751VartimeEq (x y : ℕ) : Bool := fp751StrongReduce x == fp751StrongReduce y

/-- From src/field.go, `PrimeFieldElement.VartimeEq`, at limb level. -/
def primeVartimeEq (lhs rhs : ℕ) : Bool := fp751VartimeEq lhs rhs

/-- From src/field.go, `ExtensionFieldElement.VartimeEq`, at limb level:
the a coordinates and the b coordinates must both agree. -/
def extVartimeEq (lhs rhs : ℕ × ℕ) : Bool :=
  fp751VartimeEq lhs.1 rhs.1 && fp751VartimeEq lhs.2 rhs.2

/-- The call shape of `vartimeEq` on a heap of operands: the source
signature takes `fp751Element` by value, so the callee reads copies and
the caller heap comes back unchanged. -/
def vartimeEqHeap (σ : ℕ → ℕ) (x y : ℕ) : Bool × (ℕ → ℕ) :=
  (fp751VartimeEq (σ x) (σ y), σ)


/-!
## Heap model of the mutating operations (aliasing, claim C5)

Each Go method receives a destination pointer and operand pointers that
may alias it.  A heap assigns an element to every address; each method
body is transcribed statement by statement: every operand read goes
through the heap current at that point of the body, every write updates
the destination address, in source order.  Aliasing is then just the
choice of equal addresses, and the aliasing-safety claim says the
destination always receives the pure result on the original operand
values while every other cell is untouched.
-/

/-- Heap form of `PrimeFieldElement.Mul`: operand reads, then a single
write of the reduced product into dest. -/
def PrimeFieldElement.MulH (σ : ℕ → PrimeFieldElement) (dest lhs rhs : ℕ) :
    ℕ → PrimeFieldElement :=
  Function.update σ dest (PrimeFieldElement.Mul (σ lhs) (σ rhs))

/-- Heap form of `PrimeFieldElement.Square`. -/
def PrimeFieldElement.SquareH (σ : ℕ → PrimeFieldElement) (dest x : ℕ) :
    ℕ → PrimeFieldElement :=
  Function.update σ dest (PrimeFieldElement.Square (σ x))

/-- Heap form of `PrimeFieldElement.Add`. -/
def PrimeFieldElement.AddH (σ : ℕ → PrimeFieldElement) (dest lhs rhs : ℕ) :
    ℕ → PrimeFieldElement :=
  Function.update σ dest (PrimeFieldElement.Add (σ lhs) (σ rhs))

/-- Heap form of `PrimeFieldElement.Sub`. -/
def PrimeFieldElement.SubH (σ : ℕ → PrimeFieldElement) (dest lhs rhs : ℕ) :
    ℕ → PrimeFieldElement :=
  Function.update σ dest (PrimeFieldElement.Sub (σ lhs) (σ rhs))

/-- Heap form of `PrimeFieldElement.Pow2k`: `dest.Square(x)` writes dest
once, then the loop squares dest in place k-1 times. -/
def PrimeFieldElement.Pow2kH (σ : ℕ → PrimeFieldElement) (dest x : ℕ) (k : ℕ) :
    ℕ → PrimeFieldElement :=
  (fun τ => Function.update τ dest (PrimeFieldElement.Square (τ dest)))^[k - 1]
    (Function.update σ dest (PrimeFieldElement.Square (σ x)))

/-- Heap form of `PrimeFieldElement.P34`: the lookup table is built in
locals from x before the first write `*dest = lookup[initialMul/2]`; the
loop then operates in place on dest through `dest.Pow2k(dest, ...)` and
`dest.Mul(dest, &lookup[...])`, the table being a local. -/
def PrimeFieldElement.P34H (σ : ℕ → PrimeFieldElement) (dest x : ℕ) :
    ℕ → PrimeFieldElement :=
  let xv := σ x
  let xx := PrimeFieldElement.Square xv
  let lookup := PrimeFieldElement.lookup xv xx
  (powStrategy.zip mulStrategy).foldl
    (fun τ pm =>
      let τ1 := PrimeFieldElement.Pow2kH τ dest dest pm.1
      Function.update τ1 dest
        (PrimeFieldElement.Mul (τ1 dest) (lookup (pm.2 / 2))))
    (Function.update σ dest (lookup (initialMul / 2)))

/-- Heap form of `PrimeFieldElement.Sqrt`: `tmp_x := *x` snapshots the
operand into a local, `dest.P34(x)` runs on the heap, then
`dest.Mul(dest, &tmp_x)` multiplies by the local snapshot. -/
def PrimeFieldElement.SqrtH (σ : ℕ → PrimeFieldElement) (dest x : ℕ) :
    ℕ → PrimeFieldElement :=
  let tmp_x := σ x
  let σ1 := PrimeFieldElement.P34H σ dest x
  Function.update σ1 dest (PrimeFieldElement.Mul (σ1 dest) tmp_x)

/-- Heap form of `PrimeFieldElement.Inv`: snapshot tmp_x, then
`dest.Square(x)`, `dest.P34(dest)`, `dest.Square(dest)` and finally
`dest.Mul(dest, &tmp_x)` with the local snapshot. -/
def PrimeFieldElement.InvH (σ : ℕ → PrimeFieldElement) (dest x : ℕ) :
    ℕ → PrimeFieldElement :=
  let tmp_x := σ x
  let σ1 := PrimeFieldElement.SquareH σ dest x
  let σ2 := PrimeFieldElement.P34H σ1 dest dest
  let σ3 := PrimeFieldElement.SquareH σ2 dest dest
  Function.update σ3 dest (PrimeFieldElement.Mul (σ3 dest) tmp_x)

/-- Heap form of `ExtensionFieldElement.Mul`: every operand read happens
into locals before the write of dest.b (the line order of the source),
and the final combination writes dest.a from locals only. -/
def ExtensionFieldElement.MulH (σ : ℕ → ExtensionFieldElement) (dest lhs rhs : ℕ) :
    ℕ → ExtensionFieldElement :=
  let a := (σ lhs).a
  let b := (σ lhs).b
  let c := (σ rhs).a
  let d := (σ rhs).b
  let ac := fp751Mul a c
  let bd := fp751Mul b d
  let b_minus_a := fp751SubReduced b a
  let c_minus_d := fp751SubReduced c d
  let ad_plus_bc := fp751X2AddLazy (fp751X2AddLazy (fp751Mul b_minus_a c_minus_d) ac) bd
  let σ1 := Function.update σ dest
    { a := (σ dest).a, b := fp751MontgomeryReduce ad_plus_bc }
  let ac_minus_bd := fp751X2SubLazy ac bd
  Function.update σ1 dest
    { a := fp751MontgomeryReduce ac_minus_bd, b := (σ1 dest).b }

/-- Heap form of `ExtensionFieldElement.Square`: reads into locals, then
writes dest.a, then dest.b, both from locals. -/
def ExtensionFieldElement.SquareH (σ : ℕ → ExtensionFieldElement) (dest x : ℕ) :
    ℕ → ExtensionFieldElement :=
  let a := (σ x).a
  let b := (σ x).b
  let a2 := fp751AddReduced a a
  let a_plus_b := fp751AddReduced a b
  let a_minus_b := fp751SubReduced a b
  let asq_minus_bsq := fp751Mul a_plus_b a_minus_b
  let ab2 := fp751Mul a2 b
  let σ1 := Function.update σ dest
    { a := fp751MontgomeryReduce asq_minus_bsq, b := (σ dest).b }
  Function.update σ1 dest
    { a := (σ1 dest).a, b := fp751MontgomeryReduce ab2 }

/-- Heap form of `ExtensionFieldElement.Add`: the a coordinates are read
and dest.a written first; the b coordinates are then read through the
possibly already-updated heap, exactly as the source lines execute. -/
def ExtensionFieldElement.AddH (σ : ℕ → ExtensionFieldElement) (dest lhs rhs : ℕ) :
    ℕ → ExtensionFieldElement :=
  let σ1 := Function.update σ dest
    { a := fp751AddReduced (σ lhs).a (σ rhs).a, b := (σ dest).b }
  Function.update σ1 dest
    { a := (σ1 dest).a, b := fp751AddReduced (σ1 lhs).b (σ1 rhs).b }

/-- Heap form of `ExtensionFieldElement.Sub`, like `AddH`. -/
def ExtensionFieldElement.SubH (σ : ℕ → ExtensionFieldElement) (dest lhs rhs : ℕ) :
    ℕ → ExtensionFieldElement :=
  let σ1 := Function.update σ dest
    { a := fp751SubReduced (σ lhs).a (σ rhs).a, b := (σ dest).b }
  Function.update σ1 dest
    { a := (σ1 dest).a, b := fp751SubReduced (σ1 lhs).b (σ1 rhs).b }

/-- Heap form of `ExtensionFieldElement.Inv`: the norm and its inverse
are computed in locals, dest.a is written (line 94 of the source), and
only then is x.b read again (line 97) through the updated heap to form
0 - b, before dest.b is written. -/
def ExtensionFieldElement.InvH (σ : ℕ → ExtensionFieldElement) (dest x : ℕ) :
    ℕ → ExtensionFieldElement :=
  let a := (σ x).a
  let b := (σ x).b
  let asq_plus_bsq : PrimeFieldElement :=
    { a := fp751MontgomeryReduce (fp751X2AddLazy (fp751Mul a a) (fp751Mul b b)) }
  let asq_plus_bsq_inv := PrimeFieldElement.Inv asq_plus_bsq
  let c := asq_plus_bsq_inv.a
  let a2 := (σ x).a
  let σ1 := Function.update σ dest
    { a := fp751MontgomeryReduce (fp751Mul a2 c), b := (σ dest).b }
  let b2 := (σ1 x).b
  let minus_b := fp751SubReduced 0 b2
  Function.update σ1 dest
    { a := (σ1 dest).a, b := fp751MontgomeryReduce (fp751Mul minus_b c) }


/-!
## Trace model of the primitive-call sequence (constant time, claim C10)

The constant-time discipline of the core says: no control flow and no
memory index may depend on an operand value; the residue primitives
themselves are constant-time by contract.  We instrument every
operation to emit, next to its result, the exact sequence of residue
primitive invocations its body performs, in source order, including the
index of every access to P34's local lookup table.  Claim C10 then
states that this trace depends only on public parameters (the squaring
count k of Pow2k), never on operand values.  VartimeEq is excepted: its
result genuinely depends on values.
-/

/-- One primitive invocation: a call to a residue primitive, or a read
of the P34 lookup table at a given index. -/
inductive FpOp where
  | addReduced : FpOp
  | subReduced : FpOp
  | x2AddLazy : FpOp
  | x2SubLazy : FpOp
  | mul : FpOp
  | montgomeryReduce : FpOp
  | tableRead : ℕ → FpOp
deriving DecidableEq

/-- Instrumented `PrimeFieldElement.Mul`: one fp751Mul, one reduction. -/
def PrimeFieldElement.MulT (lhs rhs : PrimeFieldElement) : PrimeFieldElement × List FpOp :=
  (PrimeFieldElement.Mul lhs rhs, [FpOp.mul, FpOp.montgomeryReduce])

/-- Instrumented `PrimeFieldElement.Square`. -/
def PrimeFieldElement.SquareT (x : PrimeFieldElement) : PrimeFieldElement × List FpOp :=
  (PrimeFieldElement.Square x, [FpOp.mul, FpOp.montgomeryReduce])

/-- Instrumented `PrimeFieldElement.Add`. -/
def PrimeFieldElement.AddT (lhs rhs : PrimeFieldElement) : PrimeFieldElement × List FpOp :=
  (PrimeFieldElement.Add lhs rhs, [FpOp.addReduced])

/-- Instrumented `PrimeFieldElement.Sub`. -/
def PrimeFieldElement.SubT (lhs rhs : PrimeFieldElement) : PrimeFieldElement × List FpOp :=
  (PrimeFieldElement.Sub lhs rhs, [FpOp.subReduced])

/-- Instrumented `PrimeFieldElement.SetUint64`: one multiplication by
R^2 and one reduction. -/
def PrimeFieldElement.SetUint64T (x : ℕ) : PrimeFieldElement × List FpOp :=
  (PrimeFieldElement.SetUint64 x, [FpOp.mul, FpOp.montgomeryReduce])

/-- Instrumented `PrimeFieldElement.Pow2k`: the first squaring, then
k-1 squarings of the accumulator, traces concatenated in order. -/
def PrimeFieldElement.Pow2kT (x : PrimeFieldElement) (k : ℕ) : PrimeFieldElement × List FpOp :=
  (fun p =>
    let s := PrimeFieldElement.SquareT p.1
    (s.1, p.2 ++ s.2))^[k - 1]
    (PrimeFieldElement.SquareT x)

/-- Instrumented lookup-table construction of `P34`: entry i is built
with i successive multiplications by xx. -/
def PrimeFieldElement.lookupT (x xx : PrimeFieldElement) : ℕ → PrimeFieldElement × List FpOp
  | 0 => (x, [])
  | i + 1 =>
    let p := PrimeFieldElement.lookupT x xx i
    let m := PrimeFieldElement.MulT p.1 xx
    (m.1, p.2 ++ m.2)

/-- Instrumented `PrimeFieldElement.P34`: one squaring for xx, the
construction of lookup[1..15], the table read seeding the accumulator,
then for each strategy pair a Pow2k, a table read at mulStrategy[i]/2
and a multiplication. -/
def PrimeFieldElement.P34T (x : PrimeFieldElement) : PrimeFieldElement × List FpOp :=
  let xxT := PrimeFieldElement.SquareT x
  let xx := xxT.1
  let tableT := PrimeFieldElement.lookupT x xx 15
  let lookup := PrimeFieldElement.lookup x xx
  (powStrategy.zip mulStrategy).foldl
    (fun destT pm =>
      let pk := PrimeFieldElement.Pow2kT destT.1 pm.1
      let m := PrimeFieldElement.MulT pk.1 (lookup (pm.2 / 2))
      (m.1, destT.2 ++ pk.2 ++ [FpOp.tableRead (pm.2 / 2)] ++ m.2))
    (lookup (initialMul / 2),
      xxT.2 ++ tableT.2 ++ [FpOp.tableRead (initialMul / 2)])

/-- Instrumented `PrimeFieldElement.Sqrt`: a P34 then a Mul. -/
def PrimeFieldElement.SqrtT (x : PrimeFieldElement) : PrimeFieldElement × List FpOp :=
  let t := PrimeFieldElement.P34T x
  let m := PrimeFieldElement.MulT t.1 x
  (m.1, t.2 ++ m.2)

/-- Instrumented `PrimeFieldElement.Inv`: Square, P34, Square, Mul. -/
def PrimeFieldElement.InvT (x : PrimeFieldElement) : PrimeFieldElement × List FpOp :=
  let s1 := PrimeFieldElement.SquareT x
  let t := PrimeFieldElement.P34T s1.1
  let s2 := PrimeFieldElement.SquareT t.1
  let m := PrimeFieldElement.MulT s2.1 x
  (m.1, s1.2 ++ t.2 ++ s2.2 ++ m.2)

/-- Instrumented `ExtensionFieldElement.Mul`, primitives in the source
line order: ac, bd, b-a, c-d, the Karatsuba product, the two lazy
additions, the reduction of the imaginary half, the lazy subtraction
and the reduction of the real half. -/
def ExtensionFieldElement.MulT (lhs rhs : ExtensionFieldElement) :
    ExtensionFieldElement × List FpOp :=
  (ExtensionFieldElement.Mul lhs rhs,
    [FpOp.mul, FpOp.mul, FpOp.subReduced, FpOp.subReduced, FpOp.mul, FpOp.x2AddLazy,
     FpOp.x2AddLazy, FpOp.montgomeryReduce, FpOp.x2SubLazy, FpOp.montgomeryReduce])

/-- Instrumented `ExtensionFieldElement.Square`, source line order. -/
def ExtensionFieldElement.SquareT (x : ExtensionFieldElement) :
    ExtensionFieldElement × List FpOp :=
  (ExtensionFieldElement.Square x,
    [FpOp.addReduced, FpOp.addReduced, FpOp.subReduced, FpOp.mul, FpOp.mul,
     FpOp.montgomeryReduce, FpOp.montgomeryReduce])

/-- Instrumented `ExtensionFieldElement.Add`. -/
def ExtensionFieldElement.AddT (lhs rhs : ExtensionFieldElement) :
    ExtensionFieldElement × List FpOp :=
  (ExtensionFieldElement.Add lhs rhs, [FpOp.addReduced, FpOp.addReduced])

/-- Instrumented `ExtensionFieldElement.Sub`. -/
def ExtensionFieldElement.SubT (lhs rhs : ExtensionFieldElement) :
    ExtensionFieldElement × List FpOp :=
  (ExtensionFieldElement.Sub lhs rhs, [FpOp.subReduced, FpOp.subReduced])

/-- Instrumented `ExtensionFieldElement.Inv`: the norm computation, the
prime-field inversion of the norm (with its own full trace), then the
two coordinate multiplications, the negation of b and the reductions,
in source line order. -/
def ExtensionFieldElement.InvT (x : ExtensionFieldElement) :
    ExtensionFieldElement × List FpOp :=
  let inner := PrimeFieldElement.InvT
    { a := fp751MontgomeryReduce (fp751X2AddLazy (fp751Mul x.a x.a) (fp751Mul x.b x.b)) }
  (ExtensionFieldElement.Inv x,
    [FpOp.mul, FpOp.mul, FpOp.x2AddLazy, FpOp.montgomeryReduce] ++ inner.2 ++
      [FpOp.mul, FpOp.montgomeryReduce, FpOp.subReduced, FpOp.mul, FpOp.montgomeryReduce])

/-!
## Basic facts about the Montgomery constants and the value map
-/

theorem montgomeryR_limbs_encode : limbsToNat montgomeryRlimbs = 2 ^ 768 % p751 := by decide

theorem montgomeryRsq_limbs_encode :
    limbsToNat montgomeryRsqLimbs = (2 ^ 768 % p751) ^ 2 % p751 := by decide

theorem montgomeryR_mul_inv : montgomeryR * montgomeryRinv = 1 := by decide

theorem montgomeryRinv_mul_R : montgomeryRinv * montgomeryR = 1 := by
  rw [mul_comm]; exact montgomeryR_mul_inv

theorem PrimeFieldElement.value_inj {x y : PrimeFieldElement}
    (h : x.value = y.value) : x = y := by
  ext
  have h2 := congrArg (fun t => t * montgomeryR) h
  simpa [PrimeFieldElement.value, mul_assoc, montgomeryRinv_mul_R] using h2

theorem PrimeFieldElement.value_Mul (x y : PrimeFieldElement) :
    (PrimeFieldElement.Mul x y).value = x.value * y.value := by
  simp only [PrimeFieldElement.value, PrimeFieldElement.Mul, fp751MontgomeryReduce, fp751Mul]
  ring

theorem PrimeFieldElement.value_Square (x : PrimeFieldElement) :
    (PrimeFieldElement.Square x).value = x.value ^ 2 := by
  simp only [PrimeFieldElement.value, PrimeFieldElement.Square, fp751MontgomeryReduce, fp751Mul]
  ring

theorem PrimeFieldElement.value_iterate_Square (n : ℕ) (x : PrimeFieldElement) :
    (PrimeFieldElement.Square^[n] x).value = x.value ^ 2 ^ n := by
  induction n with
  | zero => simp
  | succ n ih =>
    rw [Function.iterate_succ_apply', PrimeFieldElement.value_Square, ih, ← pow_mul,
      ← pow_succ]

theorem PrimeFieldElement.value_Pow2k (x : PrimeFieldElement) (k : ℕ) (hk : 1 ≤ k) :
    (PrimeFieldElement.Pow2k x k).value = x.value ^ 2 ^ k := by
  rw [PrimeFieldElement.Pow2k, PrimeFieldElement.value_iterate_Square,
    PrimeFieldElement.value_Square, ← pow_mul]
  congr 1
  conv_rhs => rw [show k = k - 1 + 1 by omega, pow_succ']

theorem PrimeFieldElement.value_lookup (x : PrimeFieldElement) (i : ℕ) :
    (PrimeFieldElement.lookup x (PrimeFieldElement.Square x) i).value
      = x.value ^ (2 * i + 1) := by
  induction i with
  | zero => simp [PrimeFieldElement.lookup]
  | succ i ih =>
    rw [PrimeFieldElement.lookup, PrimeFieldElement.value_Mul, ih,
      PrimeFieldElement.value_Square, ← pow_add]
    congr 1

theorem PrimeFieldElement.value_P34_fold (x : PrimeFieldElement) (l : List (ℕ × ℕ))
    (hl : ∀ pm ∈ l, 1 ≤ pm.1) (d : PrimeFieldElement) (e : ℕ)
    (hd : d.value = x.value ^ e) :
    (l.foldl
        (fun dest pm =>
          PrimeFieldElement.Mul (PrimeFieldElement.Pow2k dest pm.1)
            (PrimeFieldElement.lookup x (PrimeFieldElement.Square x) (pm.2 / 2))) d).value
      = x.value ^ (l.foldl (fun e pm => e * 2 ^ pm.1 + (2 * (pm.2 / 2) + 1)) e) := by
  induction l generalizing d e with
  | nil => simpa using hd
  | cons pm l ih =>
    simp only [List.foldl_cons]
    apply ih (fun q hq => hl q (List.mem_cons_of_mem _ hq))
    rw [PrimeFieldElement.value_Mul,
      PrimeFieldElement.value_Pow2k _ _ (hl pm (List.mem_cons_self _ _)),
      PrimeFieldElement.value_lookup, hd, ← pow_mul, ← pow_add]

theorem PrimeFieldElement.value_P34 (x : PrimeFieldElement) :
    (PrimeFieldElement.P34 x).value = x.value ^ p34Exponent := by
  have h := PrimeFieldElement.value_P34_fold x (powStrategy.zip mulStrategy)
    (by decide)
    (PrimeFieldElement.lookup x (PrimeFieldElement.Square x) (initialMul / 2))
    (2 * (initialMul / 2) + 1)
    (PrimeFieldElement.value_lookup x (initialMul / 2))
  exact h

theorem p34Exponent_eq : p34Exponent = (p751 - 3) / 4 := by decide

theorem PrimeFieldElement.value_oneMont :
    PrimeFieldElement.value { a := montgomeryR } = 1 := by
  simpa [PrimeFieldElement.value] using montgomeryR_mul_inv

theorem PrimeFieldElement.value_squareAndMultiply (x : PrimeFieldElement) (e : ℕ) :
    (squareAndMultiply x e).value = x.value ^ e := by
  induction e using Nat.strong_induction_on with
  | _ e ih =>
    rw [squareAndMultiply]
    split_ifs with h0 h1
    · subst h0
      simpa using PrimeFieldElement.value_oneMont
    · rw [PrimeFieldElement.value_Mul, PrimeFieldElement.value_Square,
        ih (e / 2) (Nat.div_lt_self (Nat.pos_of_ne_zero h0) one_lt_two), ← pow_mul,
        ← pow_succ]
      congr 1
      omega
    · rw [PrimeFieldElement.value_Square,
        ih (e / 2) (Nat.div_lt_self (Nat.pos_of_ne_zero h0) one_lt_two), ← pow_mul]
      congr 1
      omega

theorem four_mul_p34Exponent : 4 * p34Exponent + 1 = p751 - 2 := by decide

theorem p34Exponent_succ : p34Exponent + 1 = (p751 + 1) / 4 := by decide

theorem two_lt_p751 : 2 < p751 := by decide

theorem PrimeFieldElement.value_Inv (x : PrimeFieldElement) :
    (PrimeFieldElement.Inv x).value = x.value ^ (p751 - 2) := by
  show (PrimeFieldElement.Mul
      (PrimeFieldElement.Square (PrimeFieldElement.P34 (PrimeFieldElement.Square x)))
      x).value = _
  rw [PrimeFieldElement.value_Mul, PrimeFieldElement.value_Square,
    PrimeFieldElement.value_P34, PrimeFieldElement.value_Square, ← pow_mul, ← pow_mul,
    ← pow_succ]
  congr 1

theorem PrimeFieldElement.value_Sqrt (x : PrimeFieldElement) :
    (PrimeFieldElement.Sqrt x).value = x.value ^ ((p751 + 1) / 4) := by
  show (PrimeFieldElement.Mul (PrimeFieldElement.P34 x) x).value = _
  rw [PrimeFieldElement.value_Mul, PrimeFieldElement.value_P34, ← pow_succ,
    p34Exponent_succ]

/-- Claim C1: for every prime-field element x, the fixed sliding-window
chain of `P34` (odd-power lookup table, accumulator seeded from the
entry for exponent 27, then 137 rounds of `Pow2k` by `powStrategy[i]`
followed by a multiplication by `lookup[mulStrategy[i]/2]`) computes
exactly the same element as naive square-and-multiply over the exponent
(p-3)/4, namely x^((p-3)/4). -/
theorem claim_C1_P34_matches_squareAndMultiply (x : PrimeFieldElement) :
    PrimeFieldElement.P34 x = squareAndMultiply x ((p751 - 3) / 4) ∧
      (PrimeFieldElement.P34 x).value = x.value ^ ((p751 - 3) / 4) := by
  constructor
  · apply PrimeFieldElement.value_inj
    rw [PrimeFieldElement.value_P34, PrimeFieldElement.value_squareAndMultiply,
      p34Exponent_eq]
  · rw [PrimeFieldElement.value_P34, p34Exponent_eq]

/-- Claim C4: the 3-multiplication Karatsuba `ExtensionFieldElement.Mul`
produces exactly the element given by the direct 4-multiplication
formula (ac-bd) + (ad+bc)i, for all operands. -/
theorem claim_C4_Karatsuba_matches_direct (lhs rhs : ExtensionFieldElement) :
    ExtensionFieldElement.Mul lhs rhs = ExtensionFieldElement.MulDirect lhs rhs := by
  ext <;>
    simp only [ExtensionFieldElement.Mul, ExtensionFieldElement.MulDirect, fp751Mul,
      fp751SubReduced, fp751X2AddLazy, fp751X2SubLazy, fp751MontgomeryReduce] <;>
    ring

/-- Claim C6: `PrimeFieldElement.Inv` applied to the zero element
returns the zero element. -/
theorem claim_C6_Inv_zero : PrimeFieldElement.Inv { a := 0 } = { a := 0 } := by
  apply PrimeFieldElement.value_inj
  rw [PrimeFieldElement.value_Inv]
  have h0 : ({ a := 0 } : PrimeFieldElement).value = 0 := by
    simp [PrimeFieldElement.value]
  rw [h0]
  exact zero_pow (by have h := two_lt_p751; omega)

/-- Claim C7 as written is false: the element with stored limb value 1
in the a coordinate is not the multiplicative identity of the Montgomery
representation; multiplying x = (montgomeryR, 0) by it yields (1, 0),
not x. -/
theorem claim_C7_counterexample :
    ExtensionFieldElement.Mul { a := montgomeryR, b := 0 } { a := 1, b := 0 } ≠
      { a := montgomeryR, b := 0 } := by decide

/-- Claim C7 amended: the multiplicative identity of the extension field
is the element whose a coordinate stores the `montgomeryR` constant
(2^768 mod p, the Montgomery form of the value 1) and whose b coordinate
is zero: Mul(x, that element) = x for every x. -/
theorem claim_C7_amended_one_is_montgomeryR (x : ExtensionFieldElement) :
    ExtensionFieldElement.Mul x { a := montgomeryR, b := 0 } = x := by
  have hR := montgomeryR_mul_inv
  ext
  · simp only [ExtensionFieldElement.Mul, fp751Mul, fp751SubReduced, fp751X2AddLazy,
      fp751X2SubLazy, fp751MontgomeryReduce]
    linear_combination x.a * hR
  · simp only [ExtensionFieldElement.Mul, fp751Mul, fp751SubReduced, fp751X2AddLazy,
      fp751X2SubLazy, fp751MontgomeryReduce]
    linear_combination x.b * hR

/-- Claim C9: `Pow2k` with k = 0 does not return x unchanged; it
performs exactly the one unconditional squaring of its body, so it
behaves identically to k = 1 and sets dest to x^2. -/
theorem claim_C9_Pow2k_zero (x : PrimeFieldElement) :
    PrimeFieldElement.Pow2k x 0 = PrimeFieldElement.Square x ∧
      PrimeFieldElement.Pow2k x 0 = PrimeFieldElement.Pow2k x 1 :=
  ⟨rfl, rfl⟩

/-!
## The primality certificate checks
-/

theorem Xq.mul_def {n : ℕ} (x y : Xq n) :
    x * y = (x.1 * y.1 + 7 * (x.2 * y.2), x.1 * y.2 + x.2 * y.1) := rfl

theorem Xq.one_def (n : ℕ) : (1 : Xq n) = ((1 : ZMod n), (0 : ZMod n)) := rfl

theorem XqMap_mul (m q : ℕ) (h : q ∣ m) (x y : Xq m) :
    XqMap m q h (x * y) = XqMap m q h x * XqMap m q h y := by
  rw [Xq.mul_def, Xq.mul_def]
  refine Prod.ext ?_ ?_ <;> simp only [XqMap, map_add, map_mul, map_ofNat] <;> dsimp only

theorem XqMap_one (m q : ℕ) (h : q ∣ m) : XqMap m q h 1 = 1 := by
  rw [Xq.one_def, Xq.one_def]
  refine Prod.ext ?_ ?_ <;> simp only [XqMap, map_one, map_zero] <;> dsimp only

theorem XqMap_pow (m q : ℕ) (h : q ∣ m) (x : Xq m) (k : ℕ) :
    XqMap m q h (x ^ k) = XqMap m q h x ^ k := by
  induction k with
  | zero => simpa using XqMap_one m q h
  | succ k ih => rw [pow_succ, pow_succ, XqMap_mul, ih]

theorem Xq_card (q : ℕ) [NeZero q] : Fintype.card (Xq q) = q * q := by
  show Fintype.card (ZMod q × ZMod q) = q * q
  rw [Fintype.card_prod, ZMod.card]

theorem Xq.add_def {n : ℕ} (x y : Xq n) : x + y = (x.1 + y.1, x.2 + y.2) := rfl

theorem natToXq_one : natToXq (1, 0) = 1 := by
  rw [Xq.one_def]
  refine Prod.ext ?_ ?_ <;> simp [natToXq]

theorem natToXq_mul (u v : ℕ × ℕ) : natToXq (qmulN u v) = natToXq u * natToXq v := by
  rw [Xq.mul_def]
  refine Prod.ext ?_ ?_ <;> dsimp only [natToXq, qmulN] <;> push_cast [ZMod.natCast_mod] <;> ring

theorem qpowTR_correct : ∀ (fuel k : ℕ), k < 2 ^ fuel → ∀ x acc : ℕ × ℕ,
    natToXq (qpowTR fuel x k acc) = natToXq acc * natToXq x ^ k := by
  intro fuel
  induction fuel with
  | zero =>
    intro k hk x acc
    have hk0 : k = 0 := by simpa [Nat.lt_one_iff] using hk
    subst hk0
    show natToXq acc = natToXq acc * natToXq x ^ 0
    rw [pow_zero, mul_one]
  | succ fuel ih =>
    intro k hk x acc
    show natToXq (if k = 0 then acc else
      qpowTR fuel (qmulN x x) (k / 2) (if k % 2 = 1 then qmulN acc x else acc)) =
      natToXq acc * natToXq x ^ k
    by_cases h0 : k = 0
    · subst h0
      rw [if_pos rfl, pow_zero, mul_one]
    · rw [if_neg h0]
      have hk2 : k / 2 < 2 ^ fuel := by
        have hp : 2 ^ (fuel + 1) = 2 ^ fuel * 2 := pow_succ 2 fuel
        omega
      rw [ih _ hk2, natToXq_mul]
      by_cases h1 : k % 2 = 1
      · rw [if_pos h1, natToXq_mul, ← pow_two, ← pow_mul, mul_assoc, ← pow_succ']
        have hk' : 2 * (k / 2) + 1 = k := by omega
        rw [hk']
      · rw [if_neg h1, ← pow_two, ← pow_mul]
        have hk' : 2 * (k / 2) = k := by omega
        rw [hk']

theorem qpow_cert_full :
    qpowTR 760 (certAlphaFst, certAlphaSnd) (p751 + 1) (1, 0) = (1, 0) := by decide

theorem qpow_cert_half :
    qpowTR 760 (certAlphaFst, certAlphaSnd) ((p751 + 1) / 2) (1, 0) = (p751 - 1, 0) := by decide

theorem qmul_cert_third :
    qmulN (qpowTR 760 (certAlphaFst, certAlphaSnd) ((p751 + 1) / 3) (1, 0))
        (certGammaFst, certGammaSnd)
      = ((certGammaFst + 1) % p751, certGammaSnd) := by decide

theorem p751_plus_one_lt : p751 + 1 < 2 ^ 760 := by decide

theorem certAlpha_pow_full : certAlpha ^ (p751 + 1) = 1 := by
  unfold certAlpha
  have h := qpowTR_correct 760 (p751 + 1) p751_plus_one_lt (certAlphaFst, certAlphaSnd) (1, 0)
  rw [qpow_cert_full, natToXq_one, one_mul] at h
  exact h.symm

theorem one_le_p751 : 1 ≤ p751 := by decide

theorem natToXq_negOne : natToXq (p751 - 1, 0) = Xq.negOne p751 := by
  refine Prod.ext ?_ ?_ <;> dsimp only [natToXq, Xq.negOne]
  · rw [Nat.cast_sub one_le_p751, ZMod.natCast_self, Nat.cast_one, zero_sub]
  · simp

theorem certAlpha_pow_half : certAlpha ^ ((p751 + 1) / 2) = Xq.negOne p751 := by
  have hlt : (p751 + 1) / 2 < 2 ^ 760 := by
    have h := p751_plus_one_lt
    omega
  unfold certAlpha
  have h := qpowTR_correct 760 ((p751 + 1) / 2) hlt (certAlphaFst, certAlphaSnd) (1, 0)
  rw [qpow_cert_half, natToXq_negOne, natToXq_one, one_mul] at h
  exact h.symm

theorem certGamma_fst_add_one : (certGammaFst + 1) % p751 = certGammaFst + 1 := by decide

theorem natToXq_gamma_succ : natToXq ((certGammaFst + 1) % p751, certGammaSnd) = certGamma + 1 := by
  rw [certGamma_fst_add_one, Xq.add_def, Xq.one_def]
  refine Prod.ext ?_ ?_ <;> dsimp only [natToXq, certGamma] <;> push_cast <;> ring

theorem certAlpha_pow_third_mul_gamma :
    certAlpha ^ ((p751 + 1) / 3) * certGamma = certGamma + 1 := by
  have hlt : (p751 + 1) / 3 < 2 ^ 760 := by
    have h := p751_plus_one_lt
    omega
  unfold certAlpha certGamma
  have h := qpowTR_correct 760 ((p751 + 1) / 3) hlt (certAlphaFst, certAlphaSnd) (1, 0)
  rw [natToXq_one, one_mul] at h
  rw [← h, ← natToXq_mul, qmul_cert_third, natToXq_gamma_succ]
  rfl

theorem dvd_two_three_pow_full (d : ℕ) (h1 : d ∣ 2 ^ 372 * 3 ^ 239)
    (h2 : ¬ d ∣ 2 ^ 371 * 3 ^ 239) (h3 : ¬ d ∣ 2 ^ 372 * 3 ^ 238) :
    d = 2 ^ 372 * 3 ^ 239 := by
  have hN0 : (2 : ℕ) ^ 372 * 3 ^ 239 ≠ 0 := by positivity
  have hd0 : d ≠ 0 := by
    rintro rfl
    exact hN0 (Nat.eq_zero_of_zero_dvd h1)
  have hcop2 : Nat.Coprime 2 (ordCompl[2] d) := Nat.coprime_ordCompl Nat.prime_two hd0
  have hoddpart : ordCompl[2] d ∣ 3 ^ 239 := by
    have hdvd : ordCompl[2] d ∣ 2 ^ 372 * 3 ^ 239 := (Nat.ordCompl_dvd d 2).trans h1
    exact (Nat.Coprime.pow_right 372 hcop2.symm).dvd_of_dvd_mul_left hdvd
  have h2full : 2 ^ 372 ∣ d := by
    by_contra hc
    apply h2
    have hle : d.factorization 2 ≤ 371 := by
      by_contra hgt
      push_neg at hgt
      exact hc ((pow_dvd_pow 2 hgt).trans (Nat.ordProj_dvd d 2))
    calc d = ordProj[2] d * ordCompl[2] d := (Nat.ordProj_mul_ordCompl_eq_self d 2).symm
      _ ∣ 2 ^ 371 * 3 ^ 239 := mul_dvd_mul (pow_dvd_pow 2 hle) hoddpart
  have hcop3 : Nat.Coprime 3 (ordCompl[3] d) := Nat.coprime_ordCompl Nat.prime_three hd0
  have hevenpart : ordCompl[3] d ∣ 2 ^ 372 := by
    have hdvd : ordCompl[3] d ∣ 2 ^ 372 * 3 ^ 239 := (Nat.ordCompl_dvd d 3).trans h1
    exact (Nat.Coprime.pow_right 239 hcop3.symm).dvd_of_dvd_mul_right hdvd
  have h3full : 3 ^ 239 ∣ d := by
    by_contra hc
    apply h3
    have hle : d.factorization 3 ≤ 238 := by
      by_contra hgt
      push_neg at hgt
      exact hc ((pow_dvd_pow 3 hgt).trans (Nat.ordProj_dvd d 3))
    calc d = ordProj[3] d * ordCompl[3] d := (Nat.ordProj_mul_ordCompl_eq_self d 3).symm
      _ ∣ 3 ^ 238 * 2 ^ 372 := mul_dvd_mul (pow_dvd_pow 3 hle) hevenpart
      _ = 2 ^ 372 * 3 ^ 238 := by ring
  have hcop23 : Nat.Coprime (2 ^ 372) (3 ^ 239) :=
    Nat.Coprime.pow _ _ (by decide)
  exact Nat.dvd_antisymm h1 (hcop23.mul_dvd_of_dvd_of_dvd h2full h3full)

theorem p751_odd : p751 % 2 = 1 := by decide

theorem p751_succ_factored : p751 + 1 = 2 ^ 372 * 3 ^ 239 := by decide

theorem p751_succ_half : (p751 + 1) / 2 = 2 ^ 371 * 3 ^ 239 := by decide

theorem p751_succ_third : (p751 + 1) / 3 = 2 ^ 372 * 3 ^ 238 := by decide

theorem p751_prime_aux (q : ℕ) (hdvd : q ∣ p751) (hq3 : 2 < q)
    (hqsq : q * q ≤ p751) : False := by
  haveI : NeZero q := ⟨by omega⟩
  haveI : Fact (1 < q) := ⟨by omega⟩
  haveI : Fact (2 < q) := ⟨hq3⟩
  have hb_full : XqMap p751 q hdvd certAlpha ^ (p751 + 1) = 1 := by
    rw [← XqMap_pow, certAlpha_pow_full, XqMap_one]
  have hnegmap : XqMap p751 q hdvd (Xq.negOne p751) = Xq.negOne q := by
    refine Prod.ext ?_ ?_ <;> dsimp only [XqMap, Xq.negOne]
    · rw [map_neg, map_one]
    · rw [map_zero]
  have hneg_ne_one : Xq.negOne q ≠ 1 := by
    intro h
    have h1 := congrArg Prod.fst h
    rw [Xq.one_def] at h1
    exact ZMod.neg_one_ne_one h1
  have hb_half_ne : XqMap p751 q hdvd certAlpha ^ ((p751 + 1) / 2) ≠ 1 := by
    rw [← XqMap_pow, certAlpha_pow_half, hnegmap]
    exact hneg_ne_one
  have hb_third_ne : XqMap p751 q hdvd certAlpha ^ ((p751 + 1) / 3) ≠ 1 := by
    intro h
    have h3 := congrArg (XqMap p751 q hdvd) certAlpha_pow_third_mul_gamma
    rw [XqMap_mul, XqMap_pow] at h3
    rw [h, one_mul] at h3
    have hadd : XqMap p751 q hdvd (certGamma + 1) = XqMap p751 q hdvd certGamma + 1 := by
      rw [Xq.add_def, Xq.add_def, Xq.one_def, Xq.one_def]
      refine Prod.ext ?_ ?_ <;> dsimp only [XqMap]
      · rw [map_add, map_one]
      · rw [map_add, map_zero]
    rw [hadd] at h3
    have h1 := congrArg Prod.fst h3
    rw [Xq.add_def] at h1
    dsimp only at h1
    rw [Xq.one_def] at h1
    have hzero : (0 : ZMod q) = 1 := by
      have hc := add_left_cancel (a := (XqMap p751 q hdvd certGamma).1)
        (b := (0 : ZMod q)) (c := (1 : ZMod q))
      apply hc
      rw [add_zero]
      exact h1
    exact zero_ne_one hzero
  have hord_dvd : orderOf (XqMap p751 q hdvd certAlpha) ∣ p751 + 1 :=
    orderOf_dvd_iff_pow_eq_one.mpr hb_full
  have hord_not_half : ¬ orderOf (XqMap p751 q hdvd certAlpha) ∣ (p751 + 1) / 2 := by
    intro h
    exact hb_half_ne (orderOf_dvd_iff_pow_eq_one.mp h)
  have hord_not_third : ¬ orderOf (XqMap p751 q hdvd certAlpha) ∣ (p751 + 1) / 3 := by
    intro h
    exact hb_third_ne (orderOf_dvd_iff_pow_eq_one.mp h)
  have hord : orderOf (XqMap p751 q hdvd certAlpha) = p751 + 1 := by
    rw [p751_succ_factored]
    apply dvd_two_three_pow_full
    · rw [← p751_succ_factored]; exact hord_dvd
    · rw [← p751_succ_half]; exact hord_not_half
    · rw [← p751_succ_third]; exact hord_not_third
  have hcard : orderOf (XqMap p751 q hdvd certAlpha) ≤ Fintype.card (Xq q) :=
    orderOf_le_card_univ
  rw [hord, Xq_card q] at hcard
  omega

theorem p751_pos : 0 < p751 := by decide

theorem p751_ne_one : p751 ≠ 1 := by decide

theorem p751_minFac_ne_two : p751.minFac ≠ 2 := by
  intro h2
  have hdvd := Nat.minFac_dvd p751
  rw [h2] at hdvd
  obtain ⟨c, hc⟩ := hdvd
  have h := p751_odd
  omega

theorem p751_minFac_two_lt : 2 < p751.minFac :=
  lt_of_le_of_ne (Nat.minFac_prime p751_ne_one).two_le (Ne.symm p751_minFac_ne_two)

theorem p751_prime : Nat.Prime p751 := by
  by_contra hnp
  have hsq := Nat.minFac_sq_le_self p751_pos hnp
  rw [pow_two] at hsq
  exact p751_prime_aux p751.minFac (Nat.minFac_dvd p751) p751_minFac_two_lt hsq


/-!
## Inversion and square root: the claims needing primality of p
-/

/-- Claim C2: `PrimeFieldElement.Inv` sets dest to x^(p-2), computed as
((x^2)^((p-3)/4))^2 * x; consequently, for every nonzero x,
Mul(x, Inv(x)) has value 1, the multiplicative identity of the field. -/
theorem claim_C2_Inv_Fermat (x : PrimeFieldElement) :
    (PrimeFieldElement.Inv x).value = x.value ^ (p751 - 2) ∧
      (x.value ≠ 0 →
        (PrimeFieldElement.Mul x (PrimeFieldElement.Inv x)).value = 1) := by
  refine ⟨PrimeFieldElement.value_Inv x, fun hx => ?_⟩
  haveI : Fact (Nat.Prime p751) := ⟨p751_prime⟩
  rw [PrimeFieldElement.value_Mul, PrimeFieldElement.value_Inv, ← pow_succ']
  have h2 : p751 - 2 + 1 = p751 - 1 := by
    have h := two_lt_p751
    omega
  rw [h2]
  exact ZMod.pow_card_sub_one_eq_one hx

/-- Witness for claim C2: the Montgomery form of 1 is nonzero and
multiplying it by its inverse yields value 1. -/
theorem claim_C2_witness :
    (({ a := montgomeryR } : PrimeFieldElement).value ≠ 0) ∧
      (PrimeFieldElement.Mul { a := montgomeryR }
        (PrimeFieldElement.Inv { a := montgomeryR })).value = 1 :=
  ⟨by decide, (claim_C2_Inv_Fermat { a := montgomeryR }).2 (by decide)⟩

/-- Claim C3: `PrimeFieldElement.Sqrt` sets dest to x^((p+1)/4), namely
x * x^((p-3)/4) via P34 then Mul, and when x is a quadratic residue
squaring the result recovers x. -/
theorem claim_C3_Sqrt (x : PrimeFieldElement) :
    (PrimeFieldElement.Sqrt x).value = x.value ^ ((p751 + 1) / 4) ∧
      (IsSquare x.value →
        (PrimeFieldElement.Square (PrimeFieldElement.Sqrt x)).value = x.value) := by
  refine ⟨PrimeFieldElement.value_Sqrt x, fun hsq => ?_⟩
  obtain ⟨y, hy⟩ := hsq
  rw [PrimeFieldElement.value_Square, PrimeFieldElement.value_Sqrt, ← pow_mul, hy]
  by_cases hy0 : y = 0
  · subst hy0
    rw [mul_zero]
    exact zero_pow (by decide)
  · haveI : Fact (Nat.Prime p751) := ⟨p751_prime⟩
    have hfer : y ^ (p751 - 1) = 1 := ZMod.pow_card_sub_one_eq_one hy0
    rw [← pow_two, ← pow_mul]
    rw [show 2 * ((p751 + 1) / 4 * 2) = (p751 - 1) + 2 from by decide]
    rw [pow_add, hfer, one_mul]

/-- Witness for claim C3 at the element of value 4 = 2 * 2: a genuine
square, so the round trip applies. -/
theorem claim_C3_witness :
    IsSquare ((PrimeFieldElement.SetUint64 4).value) ∧
      (PrimeFieldElement.Square
          (PrimeFieldElement.Sqrt (PrimeFieldElement.SetUint64 4))).value
        = (PrimeFieldElement.SetUint64 4).value :=
  ⟨⟨2, by decide⟩, (claim_C3_Sqrt _).2 ⟨2, by decide⟩⟩

/-!
## Variable-time equality: claim C8
-/

theorem fp751StrongReduce_eq_mod (x : ℕ) (hx : x < 2 * p751) :
    fp751StrongReduce x = x % p751 := by
  unfold fp751StrongReduce
  split_ifs with h
  · rw [Nat.mod_eq_sub_mod h, Nat.mod_eq_of_lt (by omega)]
  · rw [Nat.mod_eq_of_lt (by omega)]

/-- Claim C8: for operands whose limb arrays encode values in [0, 2p),
the domain of StrongReduce, `PrimeFieldElement.VartimeEq` and
`ExtensionFieldElement.VartimeEq` return true exactly when the operands
are congruent modulo p (coordinatewise for the extension field), and
the comparison leaves the operands unchanged since it strong-reduces
by-value copies. -/
theorem claim_C8_VartimeEq_iff_congruent (xa xb ya yb : ℕ)
    (hxa : xa < 2 * p751) (hxb : xb < 2 * p751)
    (hya : ya < 2 * p751) (hyb : yb < 2 * p751) :
    (primeVartimeEq xa ya = true ↔ xa % p751 = ya % p751) ∧
      (extVartimeEq (xa, xb) (ya, yb) = true ↔
        (xa % p751 = ya % p751 ∧ xb % p751 = yb % p751)) ∧
      (∀ σ : ℕ → ℕ, ∀ i j : ℕ, (vartimeEqHeap σ i j).2 = σ) := by
  have key : ∀ u v : ℕ, u < 2 * p751 → v < 2 * p751 →
      (fp751VartimeEq u v = true ↔ u % p751 = v % p751) := by
    intro u v hu hv
    unfold fp751VartimeEq
    rw [beq_iff_eq, fp751StrongReduce_eq_mod u hu, fp751StrongReduce_eq_mod v hv]
  refine ⟨key xa ya hxa hya, ?_, fun σ i j => rfl⟩
  unfold extVartimeEq
  rw [Bool.and_eq_true]
  dsimp only
  rw [key xa ya hxa hya, key xb yb hxb hyb]

/-- Witness for claim C8 at the in-range values p+1 and 1, congruent
modulo p but distinct as encodings. -/
theorem claim_C8_witness :
    (primeVartimeEq (p751 + 1) 1 = true ↔ (p751 + 1) % p751 = 1 % p751) ∧
      (extVartimeEq (p751 + 1, 1) (1, p751 + 1) = true ↔
        ((p751 + 1) % p751 = 1 % p751 ∧ 1 % p751 = (p751 + 1) % p751)) ∧
      (∀ σ : ℕ → ℕ, ∀ i j : ℕ, (vartimeEqHeap σ i j).2 = σ) :=
  claim_C8_VartimeEq_iff_congruent (p751 + 1) 1 1 (p751 + 1)
    (by decide) (by decide) (by decide) (by decide)

/-!
## Aliasing safety: claim C5
-/

theorem extUpdate_read_b (σ : ℕ → ExtensionFieldElement) (dest t : ℕ)
    (va : fp751Element) :
    (Function.update σ dest { a := va, b := (σ dest).b } t).b = (σ t).b := by
  by_cases h : t = dest
  · subst h; rw [Function.update_same]
  · rw [Function.update_noteq h]

theorem PrimeFieldElement.iterSquareH (dest : ℕ) :
    ∀ (n : ℕ) (τ : ℕ → PrimeFieldElement) (v : PrimeFieldElement),
      (fun τ => Function.update τ dest (PrimeFieldElement.Square (τ dest)))^[n]
          (Function.update τ dest v)
        = Function.update τ dest (PrimeFieldElement.Square^[n] v) := by
  intro n
  induction n with
  | zero => intro τ v; rfl
  | succ n ih =>
    intro τ v
    rw [Function.iterate_succ_apply, Function.iterate_succ_apply]
    have h1 : Function.update (Function.update τ dest v) dest
          (PrimeFieldElement.Square (Function.update τ dest v dest))
        = Function.update τ dest (PrimeFieldElement.Square v) := by
      rw [Function.update_same, Function.update_idem]
    rw [h1, ih]

theorem PrimeFieldElement.Pow2kH_eq (σ : ℕ → PrimeFieldElement) (dest x k : ℕ) :
    PrimeFieldElement.Pow2kH σ dest x k
      = Function.update σ dest (PrimeFieldElement.Pow2k (σ x) k) := by
  unfold PrimeFieldElement.Pow2kH PrimeFieldElement.Pow2k
  exact PrimeFieldElement.iterSquareH dest (k - 1) σ (PrimeFieldElement.Square (σ x))

theorem PrimeFieldElement.P34H_fold (dest : ℕ) (L : ℕ → PrimeFieldElement) :
    ∀ (l : List (ℕ × ℕ)) (τ : ℕ → PrimeFieldElement) (v : PrimeFieldElement),
      l.foldl
          (fun τ pm =>
            let τ1 := PrimeFieldElement.Pow2kH τ dest dest pm.1
            Function.update τ1 dest
              (PrimeFieldElement.Mul (τ1 dest) (L (pm.2 / 2))))
          (Function.update τ dest v)
        = Function.update τ dest
            (l.foldl
              (fun d pm =>
                PrimeFieldElement.Mul (PrimeFieldElement.Pow2k d pm.1) (L (pm.2 / 2)))
              v) := by
  intro l
  induction l with
  | nil => intro τ v; rfl
  | cons pm l ih =>
    intro τ v
    rw [List.foldl_cons, List.foldl_cons]
    have hstep :
        Function.update
            (PrimeFieldElement.Pow2kH (Function.update τ dest v) dest dest pm.1) dest
            (PrimeFieldElement.Mul
              (PrimeFieldElement.Pow2kH (Function.update τ dest v) dest dest pm.1 dest)
              (L (pm.2 / 2)))
          = Function.update τ dest
              (PrimeFieldElement.Mul (PrimeFieldElement.Pow2k v pm.1) (L (pm.2 / 2))) := by
      rw [PrimeFieldElement.Pow2kH_eq]
      simp only [Function.update_same, Function.update_idem]
    rw [hstep, ih]

theorem PrimeFieldElement.P34H_eq (σ : ℕ → PrimeFieldElement) (dest x : ℕ) :
    PrimeFieldElement.P34H σ dest x
      = Function.update σ dest (PrimeFieldElement.P34 (σ x)) := by
  unfold PrimeFieldElement.P34H PrimeFieldElement.P34
  exact PrimeFieldElement.P34H_fold dest _ _ σ _

theorem PrimeFieldElement.SqrtH_eq (σ : ℕ → PrimeFieldElement) (dest x : ℕ) :
    PrimeFieldElement.SqrtH σ dest x
      = Function.update σ dest (PrimeFieldElement.Sqrt (σ x)) := by
  unfold PrimeFieldElement.SqrtH PrimeFieldElement.Sqrt
  rw [PrimeFieldElement.P34H_eq]
  simp only [Function.update_same, Function.update_idem]

theorem PrimeFieldElement.InvH_eq (σ : ℕ → PrimeFieldElement) (dest x : ℕ) :
    PrimeFieldElement.InvH σ dest x
      = Function.update σ dest (PrimeFieldElement.Inv (σ x)) := by
  unfold PrimeFieldElement.InvH PrimeFieldElement.Inv PrimeFieldElement.SquareH
  dsimp only
  rw [PrimeFieldElement.P34H_eq]
  simp only [Function.update_same, Function.update_idem]

theorem ExtensionFieldElement.MulH_eq (σ : ℕ → ExtensionFieldElement) (dest lhs rhs : ℕ) :
    ExtensionFieldElement.MulH σ dest lhs rhs
      = Function.update σ dest (ExtensionFieldElement.Mul (σ lhs) (σ rhs)) := by
  unfold ExtensionFieldElement.MulH ExtensionFieldElement.Mul
  simp only [Function.update_same, Function.update_idem]

theorem ExtensionFieldElement.SquareH_eq (σ : ℕ → ExtensionFieldElement) (dest x : ℕ) :
    ExtensionFieldElement.SquareH σ dest x
      = Function.update σ dest (ExtensionFieldElement.Square (σ x)) := by
  unfold ExtensionFieldElement.SquareH ExtensionFieldElement.Square
  simp only [Function.update_same, Function.update_idem]

theorem ExtensionFieldElement.AddH_eq (σ : ℕ → ExtensionFieldElement) (dest lhs rhs : ℕ) :
    ExtensionFieldElement.AddH σ dest lhs rhs
      = Function.update σ dest (ExtensionFieldElement.Add (σ lhs) (σ rhs)) := by
  unfold ExtensionFieldElement.AddH ExtensionFieldElement.Add
  dsimp only
  rw [extUpdate_read_b, extUpdate_read_b]
  simp only [Function.update_same, Function.update_idem]

theorem ExtensionFieldElement.SubH_eq (σ : ℕ → ExtensionFieldElement) (dest lhs rhs : ℕ) :
    ExtensionFieldElement.SubH σ dest lhs rhs
      = Function.update σ dest (ExtensionFieldElement.Sub (σ lhs) (σ rhs)) := by
  unfold ExtensionFieldElement.SubH ExtensionFieldElement.Sub
  dsimp only
  rw [extUpdate_read_b, extUpdate_read_b]
  simp only [Function.update_same, Function.update_idem]

theorem ExtensionFieldElement.extInvH_eq (σ : ℕ → ExtensionFieldElement) (dest x : ℕ) :
    ExtensionFieldElement.InvH σ dest x
      = Function.update σ dest (ExtensionFieldElement.Inv (σ x)) := by
  unfold ExtensionFieldElement.InvH ExtensionFieldElement.Inv
  dsimp only
  rw [extUpdate_read_b]
  simp only [Function.update_same, Function.update_idem]

/-- Claim C5: for every operation Mul, Square, Inv, Add, Sub on both
element types, and for Sqrt, Pow2k and P34, and for every heap and
every choice of destination and operand addresses -- including all
aliased choices, dest = lhs, dest = rhs, lhs = rhs or all equal -- the
destination cell ends with the operation applied to the original
operand values (the same value as with distinct non-aliased storage),
and no other cell changes. -/
theorem claim_C5_aliasing_safety :
    (∀ (σ : ℕ → PrimeFieldElement) (dest lhs rhs : ℕ),
        PrimeFieldElement.MulH σ dest lhs rhs dest
            = PrimeFieldElement.Mul (σ lhs) (σ rhs)
          ∧ ∀ t, t ≠ dest → PrimeFieldElement.MulH σ dest lhs rhs t = σ t) ∧
    (∀ (σ : ℕ → PrimeFieldElement) (dest x : ℕ),
        PrimeFieldElement.SquareH σ dest x dest = PrimeFieldElement.Square (σ x)
          ∧ ∀ t, t ≠ dest → PrimeFieldElement.SquareH σ dest x t = σ t) ∧
    (∀ (σ : ℕ → PrimeFieldElement) (dest lhs rhs : ℕ),
        PrimeFieldElement.AddH σ dest lhs rhs dest
            = PrimeFieldElement.Add (σ lhs) (σ rhs)
          ∧ ∀ t, t ≠ dest → PrimeFieldElement.AddH σ dest lhs rhs t = σ t) ∧
    (∀ (σ : ℕ → PrimeFieldElement) (dest lhs rhs : ℕ),
        PrimeFieldElement.SubH σ dest lhs rhs dest
            = PrimeFieldElement.Sub (σ lhs) (σ rhs)
          ∧ ∀ t, t ≠ dest → PrimeFieldElement.SubH σ dest lhs rhs t = σ t) ∧
    (∀ (σ : ℕ → PrimeFieldElement) (dest x k : ℕ),
        PrimeFieldElement.Pow2kH σ dest x k dest = PrimeFieldElement.Pow2k (σ x) k
          ∧ ∀ t, t ≠ dest → PrimeFieldElement.Pow2kH σ dest x k t = σ t) ∧
    (∀ (σ : ℕ → PrimeFieldElement) (dest x : ℕ),
        PrimeFieldElement.P34H σ dest x dest = PrimeFieldElement.P34 (σ x)
          ∧ ∀ t, t ≠ dest → PrimeFieldElement.P34H σ dest x t = σ t) ∧
    (∀ (σ : ℕ → PrimeFieldElement) (dest x : ℕ),
        PrimeFieldElement.SqrtH σ dest x dest = PrimeFieldElement.Sqrt (σ x)
          ∧ ∀ t, t ≠ dest → PrimeFieldElement.SqrtH σ dest x t = σ t) ∧
    (∀ (σ : ℕ → PrimeFieldElement) (dest x : ℕ),
        PrimeFieldElement.InvH σ dest x dest = PrimeFieldElement.Inv (σ x)
          ∧ ∀ t, t ≠ dest → PrimeFieldElement.InvH σ dest x t = σ t) ∧
    (∀ (σ : ℕ → ExtensionFieldElement) (dest lhs rhs : ℕ),
        ExtensionFieldElement.MulH σ dest lhs rhs dest
            = ExtensionFieldElement.Mul (σ lhs) (σ rhs)
          ∧ ∀ t, t ≠ dest → ExtensionFieldElement.MulH σ dest lhs rhs t = σ t) ∧
    (∀ (σ : ℕ → ExtensionFieldElement) (dest x : ℕ),
        ExtensionFieldElement.SquareH σ dest x dest = ExtensionFieldElement.Square (σ x)
          ∧ ∀ t, t ≠ dest → ExtensionFieldElement.SquareH σ dest x t = σ t) ∧
    (∀ (σ : ℕ → ExtensionFieldElement) (dest lhs rhs : ℕ),
        ExtensionFieldElement.AddH σ dest lhs rhs dest
            = ExtensionFieldElement.Add (σ lhs) (σ rhs)
          ∧ ∀ t, t ≠ dest → ExtensionFieldElement.AddH σ dest lhs rhs t = σ t) ∧
    (∀ (σ : ℕ → ExtensionFieldElement) (dest lhs rhs : ℕ),
        ExtensionFieldElement.SubH σ dest lhs rhs dest
            = ExtensionFieldElement.Sub (σ lhs) (σ rhs)
          ∧ ∀ t, t ≠ dest → ExtensionFieldElement.SubH σ dest lhs rhs t = σ t) ∧
    (∀ (σ : ℕ → ExtensionFieldElement) (dest x : ℕ),
        ExtensionFieldElement.InvH σ dest x dest = ExtensionFieldElement.Inv (σ x)
          ∧ ∀ t, t ≠ dest → ExtensionFieldElement.InvH σ dest x t = σ t) := by
  refine ⟨?_, ?_, ?_, ?_, ?_, ?_, ?_, ?_, ?_, ?_, ?_, ?_, ?_⟩
  · intro σ dest lhs rhs
    rw [PrimeFieldElement.MulH]
    exact ⟨Function.update_same _ _ _, fun t ht => Function.update_noteq ht _ _⟩
  · intro σ dest x
    rw [PrimeFieldElement.SquareH]
    exact ⟨Function.update_same _ _ _, fun t ht => Function.update_noteq ht _ _⟩
  · intro σ dest lhs rhs
    rw [PrimeFieldElement.AddH]
    exact ⟨Function.update_same _ _ _, fun t ht => Function.update_noteq ht _ _⟩
  · intro σ dest lhs rhs
    rw [PrimeFieldElement.SubH]
    exact ⟨Function.update_same _ _ _, fun t ht => Function.update_noteq ht _ _⟩
  · intro σ dest x k
    rw [PrimeFieldElement.Pow2kH_eq]
    exact ⟨Function.update_same _ _ _, fun t ht => Function.update_noteq ht _ _⟩
  · intro σ dest x
    rw [PrimeFieldElement.P34H_eq]
    exact ⟨Function.update_same _ _ _, fun t ht => Function.update_noteq ht _ _⟩
  · intro σ dest x
    rw [PrimeFieldElement.SqrtH_eq]
    exact ⟨Function.update_same _ _ _, fun t ht => Function.update_noteq ht _ _⟩
  · intro σ dest x
    rw [PrimeFieldElement.InvH_eq]
    exact ⟨Function.update_same _ _ _, fun t ht => Function.update_noteq ht _ _⟩
  · intro σ dest lhs rhs
    rw [ExtensionFieldElement.MulH_eq]
    exact ⟨Function.update_same _ _ _, fun t ht => Function.update_noteq ht _ _⟩
  · intro σ dest x
    rw [ExtensionFieldElement.SquareH_eq]
    exact ⟨Function.update_same _ _ _, fun t ht => Function.update_noteq ht _ _⟩
  · intro σ dest lhs rhs
    rw [ExtensionFieldElement.AddH_eq]
    exact ⟨Function.update_same _ _ _, fun t ht => Function.update_noteq ht _ _⟩
  · intro σ dest lhs rhs
    rw [ExtensionFieldElement.SubH_eq]
    exact ⟨Function.update_same _ _ _, fun t ht => Function.update_noteq ht _ _⟩
  · intro σ dest x
    rw [ExtensionFieldElement.extInvH_eq]
    exact ⟨Function.update_same _ _ _, fun t ht => Function.update_noteq ht _ _⟩

/-- Witness for claim C5: a fully aliased prime-field multiplication on
a concrete one-cell heap leaves the neighbouring cell untouched. -/
theorem claim_C5_witness :
    PrimeFieldElement.MulH (fun _ => { a := 0 }) 0 0 0 1 = { a := 0 } :=
  (claim_C5_aliasing_safety.1 (fun _ => { a := 0 }) 0 0 0).2 1 (by decide)

/-!
## Constant-time traces: claim C10
-/

theorem PrimeFieldElement.sqStepT_fst (n : ℕ) :
    ∀ p : PrimeFieldElement × List FpOp,
      ((fun p =>
          let s := PrimeFieldElement.SquareT p.1
          (s.1, p.2 ++ s.2))^[n] p).1
        = PrimeFieldElement.Square^[n] p.1 := by
  induction n with
  | zero => intro p; rfl
  | succ n ih =>
    intro p
    rw [Function.iterate_succ_apply, Function.iterate_succ_apply]
    exact ih _

theorem PrimeFieldElement.Pow2kT_fst (x : PrimeFieldElement) (k : ℕ) :
    (PrimeFieldElement.Pow2kT x k).1 = PrimeFieldElement.Pow2k x k := by
  unfold PrimeFieldElement.Pow2kT PrimeFieldElement.Pow2k
  rw [PrimeFieldElement.sqStepT_fst]
  rfl

theorem PrimeFieldElement.sqStepT_trace (n : ℕ) :
    ∀ p q : PrimeFieldElement × List FpOp, p.2 = q.2 →
      ((fun p =>
          let s := PrimeFieldElement.SquareT p.1
          (s.1, p.2 ++ s.2))^[n] p).2
        = ((fun p =>
            let s := PrimeFieldElement.SquareT p.1
            (s.1, p.2 ++ s.2))^[n] q).2 := by
  induction n with
  | zero => intro p q h; exact h
  | succ n ih =>
    intro p q h
    rw [Function.iterate_succ_apply, Function.iterate_succ_apply]
    apply ih
    dsimp only [PrimeFieldElement.SquareT]
    rw [h]

theorem PrimeFieldElement.Pow2kT_trace_eq (k : ℕ) (x y : PrimeFieldElement) :
    (PrimeFieldElement.Pow2kT x k).2 = (PrimeFieldElement.Pow2kT y k).2 := by
  unfold PrimeFieldElement.Pow2kT
  exact PrimeFieldElement.sqStepT_trace (k - 1) _ _ rfl

theorem PrimeFieldElement.lookupT_trace_eq (i : ℕ) :
    ∀ x xx y yy : PrimeFieldElement,
      (PrimeFieldElement.lookupT x xx i).2 = (PrimeFieldElement.lookupT y yy i).2 := by
  induction i with
  | zero => intro x xx y yy; rfl
  | succ i ih =>
    intro x xx y yy
    dsimp only [PrimeFieldElement.lookupT, PrimeFieldElement.MulT]
    rw [ih x xx y yy]

theorem PrimeFieldElement.p34StepT_trace (L M : ℕ → PrimeFieldElement)
    (l : List (ℕ × ℕ)) :
    ∀ p q : PrimeFieldElement × List FpOp, p.2 = q.2 →
      (l.foldl
          (fun destT pm =>
            let pk := PrimeFieldElement.Pow2kT destT.1 pm.1
            let m := PrimeFieldElement.MulT pk.1 (L (pm.2 / 2))
            (m.1, destT.2 ++ pk.2 ++ [FpOp.tableRead (pm.2 / 2)] ++ m.2)) p).2
        = (l.foldl
            (fun destT pm =>
              let pk := PrimeFieldElement.Pow2kT destT.1 pm.1
              let m := PrimeFieldElement.MulT pk.1 (M (pm.2 / 2))
              (m.1, destT.2 ++ pk.2 ++ [FpOp.tableRead (pm.2 / 2)] ++ m.2)) q).2 := by
  induction l with
  | nil => intro p q h; exact h
  | cons pm l ih =>
    intro p q h
    rw [List.foldl_cons, List.foldl_cons]
    apply ih
    dsimp only [PrimeFieldElement.MulT]
    rw [h, PrimeFieldElement.Pow2kT_trace_eq pm.1 p.1 q.1]

theorem PrimeFieldElement.P34T_trace_eq (x y : PrimeFieldElement) :
    (PrimeFieldElement.P34T x).2 = (PrimeFieldElement.P34T y).2 := by
  unfold PrimeFieldElement.P34T
  dsimp only
  apply PrimeFieldElement.p34StepT_trace
  dsimp only [PrimeFieldElement.SquareT]
  rw [PrimeFieldElement.lookupT_trace_eq 15 x (PrimeFieldElement.Square x) y
    (PrimeFieldElement.Square y)]

theorem PrimeFieldElement.SqrtT_trace_eq (x y : PrimeFieldElement) :
    (PrimeFieldElement.SqrtT x).2 = (PrimeFieldElement.SqrtT y).2 := by
  dsimp only [PrimeFieldElement.SqrtT, PrimeFieldElement.MulT]
  rw [PrimeFieldElement.P34T_trace_eq x y]

theorem PrimeFieldElement.InvT_trace_eq (x y : PrimeFieldElement) :
    (PrimeFieldElement.InvT x).2 = (PrimeFieldElement.InvT y).2 := by
  dsimp only [PrimeFieldElement.InvT, PrimeFieldElement.MulT, PrimeFieldElement.SquareT]
  rw [PrimeFieldElement.P34T_trace_eq (PrimeFieldElement.Square x)
    (PrimeFieldElement.Square y)]

theorem ExtensionFieldElement.extInvT_trace_eq (x y : ExtensionFieldElement) :
    (ExtensionFieldElement.InvT x).2 = (ExtensionFieldElement.InvT y).2 := by
  dsimp only [ExtensionFieldElement.InvT]
  rw [PrimeFieldElement.InvT_trace_eq
    { a := fp751MontgomeryReduce (fp751X2AddLazy (fp751Mul x.a x.a) (fp751Mul x.b x.b)) }
    { a := fp751MontgomeryReduce (fp751X2AddLazy (fp751Mul y.a y.a) (fp751Mul y.b y.b)) }]

theorem PrimeFieldElement.p34StepT_fst (L : ℕ → PrimeFieldElement) (l : List (ℕ × ℕ)) :
    ∀ p : PrimeFieldElement × List FpOp,
      (l.foldl
          (fun destT pm =>
            let pk := PrimeFieldElement.Pow2kT destT.1 pm.1
            let m := PrimeFieldElement.MulT pk.1 (L (pm.2 / 2))
            (m.1, destT.2 ++ pk.2 ++ [FpOp.tableRead (pm.2 / 2)] ++ m.2)) p).1
        = l.foldl
            (fun d pm =>
              PrimeFieldElement.Mul (PrimeFieldElement.Pow2k d pm.1) (L (pm.2 / 2)))
            p.1 := by
  induction l with
  | nil => intro p; rfl
  | cons pm l ih =>
    intro p
    rw [List.foldl_cons, List.foldl_cons]
    rw [ih]
    dsimp only [PrimeFieldElement.MulT]
    rw [PrimeFieldElement.Pow2kT_fst]

theorem PrimeFieldElement.P34T_fst (x : PrimeFieldElement) :
    (PrimeFieldElement.P34T x).1 = PrimeFieldElement.P34 x := by
  unfold PrimeFieldElement.P34T PrimeFieldElement.P34
  exact PrimeFieldElement.p34StepT_fst _ _ _

theorem PrimeFieldElement.SqrtT_fst (x : PrimeFieldElement) :
    (PrimeFieldElement.SqrtT x).1 = PrimeFieldElement.Sqrt x := by
  dsimp only [PrimeFieldElement.SqrtT, PrimeFieldElement.MulT]
  rw [PrimeFieldElement.P34T_fst]
  rfl

theorem PrimeFieldElement.InvT_fst (x : PrimeFieldElement) :
    (PrimeFieldElement.InvT x).1 = PrimeFieldElement.Inv x := by
  dsimp only [PrimeFieldElement.InvT, PrimeFieldElement.MulT, PrimeFieldElement.SquareT]
  rw [PrimeFieldElement.P34T_fst]
  rfl

/-- Claim C10: every instrumented operation of the core except the
variable-time equality emits a primitive-call and table-access trace
that is independent of all operand values; only the public squaring
count k of Pow2k shapes a trace.  In particular no branch, loop bound
or lookup index of the exponentiation routine P34 depends on the value
of the operand. -/
theorem claim_C10_constant_time_traces :
    (∀ x y u v : PrimeFieldElement,
        (PrimeFieldElement.MulT x y).2 = (PrimeFieldElement.MulT u v).2) ∧
    (∀ x y : PrimeFieldElement,
        (PrimeFieldElement.SquareT x).2 = (PrimeFieldElement.SquareT y).2) ∧
    (∀ x y u v : PrimeFieldElement,
        (PrimeFieldElement.AddT x y).2 = (PrimeFieldElement.AddT u v).2) ∧
    (∀ x y u v : PrimeFieldElement,
        (PrimeFieldElement.SubT x y).2 = (PrimeFieldElement.SubT u v).2) ∧
    (∀ m n : ℕ,
        (PrimeFieldElement.SetUint64T m).2 = (PrimeFieldElement.SetUint64T n).2) ∧
    (∀ k : ℕ, ∀ x y : PrimeFieldElement,
        (PrimeFieldElement.Pow2kT x k).2 = (PrimeFieldElement.Pow2kT y k).2) ∧
    (∀ x y : PrimeFieldElement,
        (PrimeFieldElement.P34T x).2 = (PrimeFieldElement.P34T y).2) ∧
    (∀ x y : PrimeFieldElement,
        (PrimeFieldElement.SqrtT x).2 = (PrimeFieldElement.SqrtT y).2) ∧
    (∀ x y : PrimeFieldElement,
        (PrimeFieldElement.InvT x).2 = (PrimeFieldElement.InvT y).2) ∧
    (∀ x y u v : ExtensionFieldElement,
        (ExtensionFieldElement.MulT x y).2 = (ExtensionFieldElement.MulT u v).2) ∧
    (∀ x y : ExtensionFieldElement,
        (ExtensionFieldElement.SquareT x).2 = (ExtensionFieldElement.SquareT y).2) ∧
    (∀ x y u v : ExtensionFieldElement,
        (ExtensionFieldElement.AddT x y).2 = (ExtensionFieldElement.AddT u v).2) ∧
    (∀ x y u v : ExtensionFieldElement,
        (ExtensionFieldElement.SubT x y).2 = (ExtensionFieldElement.SubT u v).2) ∧
    (∀ x y : ExtensionFieldElement,
        (ExtensionFieldElement.InvT x).2 = (ExtensionFieldElement.InvT y).2) :=
  ⟨fun _ _ _ _ => rfl, fun _ _ => rfl, fun _ _ _ _ => rfl, fun _ _ _ _ => rfl,
    fun _ _ => rfl, PrimeFieldElement.Pow2kT_trace_eq, PrimeFieldElement.P34T_trace_eq,
    PrimeFieldElement.SqrtT_trace_eq, PrimeFieldElement.InvT_trace_eq,
    fun _ _ _ _ => rfl, fun _ _ => rfl, fun _ _ _ _ => rfl, fun _ _ _ _ => rfl,
    ExtensionFieldElement.extInvT_trace_eq⟩
